import Mathlib

/-!
Verification development for the distributed task scheduler and worker.

The worker sources (`distributed/worker.py`) are embedded directly.  The
scheduler module itself is not part of the available sources (only its test
suite is), so scheduler-side operations are modelled from the specification;
every such definition carries a doc comment starting with
`Modelled from the spec:`.
-/

/-! ## Memory accounting model (spec section 3 and 4.9) -/

namespace MemoryModel

/-- Modelled from the spec: `MemoryState` lives in the scheduler module, which
is not among the available sources.  Fields follow the spec's data model:
`process`, `managed_in_memory`, `managed_spilled`, `unmanaged_old` are
non-negative byte counts, embedded as `Nat`. -/
structure MemoryState where
  process : Nat
  managed_in_memory : Nat
  managed_spilled : Nat
  unmanaged_old : Nat
deriving DecidableEq

/-- Modelled from the spec: construction normalizes inputs so that all derived
quantities are non-negative and add up; the constructor clamps
`managed_in_memory` to `process`, and `unmanaged_old` to the unmanaged
remainder `process - managed_in_memory`. -/
def MemoryState.make (process unmanaged_old managed_in_memory managed_spilled : Nat) :
    MemoryState :=
  let mim := min managed_in_memory process
  ⟨process, mim, managed_spilled, min unmanaged_old (process - mim)⟩

/-- Modelled from the spec: `managed = managed_in_memory + managed_spilled`. -/
def MemoryState.managed (m : MemoryState) : Nat :=
  m.managed_in_memory + m.managed_spilled

/-- Modelled from the spec: `unmanaged = max(process - managed_in_memory, 0)`;
truncated `Nat` subtraction realizes the clamp at zero. -/
def MemoryState.unmanaged (m : MemoryState) : Nat :=
  m.process - m.managed_in_memory

/-- Modelled from the spec: `unmanaged_recent = max(unmanaged - unmanaged_old, 0)`. -/
def MemoryState.unmanaged_recent (m : MemoryState) : Nat :=
  m.unmanaged - m.unmanaged_old

/-- Modelled from the spec: `optimistic = managed_in_memory + unmanaged_old`. -/
def MemoryState.optimistic (m : MemoryState) : Nat :=
  m.managed_in_memory + m.unmanaged_old

end MemoryModel

/-! ## Worker status change handler (`Worker.handle_worker_status_change`) -/

namespace WorkerStatusChange

/-- Worker status values, as enumerated in the spec's data model for
`WorkerState.status` (the `Status` enum itself lives outside the worker
module). -/
inductive Status where
  | statusInit
  | running
  | paused
  | closing_gracefully
  | closing
  | closed
  | failed
deriving DecidableEq, Fintype

/-- The set of statuses in which a worker counts as running, from
`distributed/worker.py`: `WORKER_ANY_RUNNING = {running, paused,
closing_gracefully}`. -/
def WORKER_ANY_RUNNING : List Status :=
  [.running, .paused, .closing_gracefully]

/-- Result of handling a `worker-status-change` command: the worker's status
afterwards, and the status it announces back to the scheduler. -/
structure StatusChangeEffect where
  newStatus : Status
  announced : Status
deriving DecidableEq

/-- Embeds `Worker.handle_worker_status_change`: if the commanded status is
`closing_gracefully` while the worker is not in `WORKER_ANY_RUNNING`, the
status is left unchanged and the current status is re-announced to the
scheduler; otherwise the commanded status is adopted (the status setter
announces the new value). -/
def handle_worker_status_change (current commanded : Status) : StatusChangeEffect :=
  if commanded = .closing_gracefully ∧ current ∉ WORKER_ANY_RUNNING then
    ⟨current, current⟩
  else
    ⟨commanded, commanded⟩

end WorkerStatusChange

/-! ## Nested task evaluation (`execute_task` in `distributed/worker.py`) -/

namespace ExecuteTask

/-- Python values occurring in the nested task expressions of the worker:
integers and lists of values. -/
inductive PyVal where
  | int (n : Int)
  | list (xs : List PyVal)

/-- The callables used in the doctest of `execute_task`: `inc` and `sum`. -/
inductive Fn where
  | inc
  | sum
deriving DecidableEq

/-- Python `sum` over a list of values (non-integers contribute nothing; the
doctest only sums integers). -/
def sumInts : List PyVal → Int
  | [] => 0
  | .int n :: rest => n + sumInts rest
  | .list _ :: rest => sumInts rest

/-- Semantics of applying one of the modelled callables to evaluated
arguments. -/
def applyFn : Fn → List PyVal → PyVal
  | .inc, [.int n] => .int (n + 1)
  | .sum, [.list xs] => .int (sumInts xs)
  | _, _ => .int 0

/-- A nested task expression, following `dask.core.istask`: a nonempty tuple
whose first element is callable is a task (`tup`); a Python list is `lst`;
anything else is a plain value (`const`). -/
inductive TaskExpr where
  | const (v : PyVal)
  | tup (f : Fn) (args : List TaskExpr)
  | lst (args : List TaskExpr)

mutual

/-- Embeds `execute_task` from `distributed/worker.py`: a task tuple applies
its callable to the recursively evaluated remaining elements, a list maps the
evaluation over its elements, and any other value is returned unchanged. -/
def execute_task : TaskExpr → PyVal
  | .const v => v
  | .tup f args => applyFn f (execute_list args)
  | .lst args => .list (execute_list args)

/-- Pointwise evaluation of a list of task expressions (the `map` in
`execute_task`). -/
def execute_list : List TaskExpr → List PyVal
  | [] => []
  | t :: ts => execute_task t :: execute_list ts

end

end ExecuteTask

/-! ## Worker registry (`remove_worker`, spec section 4.2) -/

namespace WorkerRegistry

/-- A task as seen by `remove_worker`: its key, the worker currently executing
it (if any), and the workers holding a replica of its result. -/
structure TaskRef where
  key : String
  processing_on : Option String
  who_has : List String
deriving DecidableEq

/-- Scheduler-side registry state touched by `remove_worker`: the addresses of
live workers and the task records that reference them. -/
structure RegistryState where
  workers : List String
  tasks : List TaskRef
deriving DecidableEq

/-- Modelled from the spec: `Scheduler.remove_worker` is not among the
available sources.  Per spec section 4.2 it is idempotent and returns
`"already-removed"` if the address is absent; on removal it drops the worker,
marks each task it was processing for re-scheduling (here: clears
`processing_on`), and removes its replicas from `who_has`. -/
def remove_worker (address : String) (s : RegistryState) : String × RegistryState :=
  if address ∈ s.workers then
    ("OK",
      { workers := s.workers.filter (fun a => a != address)
        tasks := s.tasks.map fun t =>
          { t with
            processing_on := if t.processing_on = some address then none else t.processing_on
            who_has := t.who_has.filter (fun a => a != address) } })
  else
    ("already-removed", s)

end WorkerRegistry

/-! ## Retry semantics on worker-reported task failure (spec section 4.7) -/

namespace Retries

/-- Outcome of one execution attempt of a task on a worker: the user code
raises with a message, or returns a value. -/
inductive Outcome where
  | fail (msg : String)
  | ok (v : Int)
deriving DecidableEq

/-- Final fate of a task as observed by the scheduler: finished with a value
and the remaining retry budget, or erred with the last exception. -/
inductive RunResult where
  | finished (v : Int) (retries : Nat)
  | erred (msg : String)
deriving DecidableEq

/-- Task states traversed while attempts are made. -/
inductive TaskPhase where
  | processing
  | released
  | memory
  | erred
deriving DecidableEq

/-- Modelled from the spec: the scheduler's handling of worker-reported task
failure is not among the available sources.  Per spec section 4.7, on a
reported failure with `retries > 0` the counter is decremented and the task is
re-run; with `retries = 0` the task errs with that exception.  The list holds
the successive attempt outcomes of the task's user code. -/
def runRetries : List Outcome → Nat → RunResult
  | [], _ => .erred "no-attempt"
  | .ok v :: _, r => .finished v r
  | .fail _ :: rest, r + 1 => runRetries rest r
  | .fail m :: _, 0 => .erred m

/-- Modelled from the spec: the task-state trajectory induced by the attempt
outcomes; a retried failure passes through
`processing → released → processing`. -/
def retryTrace : List Outcome → Nat → List TaskPhase
  | [], _ => []
  | .ok _ :: _, _ => [.processing, .memory]
  | .fail _ :: rest, r + 1 => .processing :: .released :: retryTrace rest r
  | .fail _ :: _, 0 => [.processing, .erred]

end Retries

/-! ## Idle detection (`check_idle`, spec section 4.10) -/

namespace IdleDetection

/-- Scheduler observables used by the idle check: how many tasks exist, how
many tasks are processing on workers, whether the previous check observed
idleness, and the recorded idle timestamp. -/
structure IdleState where
  tasks : Nat
  processingCount : Nat
  prevIdle : Bool
  idle_since : Option Nat
deriving DecidableEq

/-- Modelled from the spec: `Scheduler.check_idle` is not among the available
sources.  Per spec section 4.10 the scheduler is idle if no tasks exist and no
worker is processing, and `idle_since` is recorded only when two consecutive
checks both observed idleness; a non-idle observation clears `idle_since`. -/
def check_idle (now : Nat) (s : IdleState) : IdleState :=
  if s.tasks = 0 ∧ s.processingCount = 0 then
    if s.prevIdle then
      { s with idle_since := some (s.idle_since.getD now) }
    else
      { s with prevIdle := true, idle_since := none }
  else
    { s with prevIdle := false, idle_since := none }

end IdleDetection

/-! ## Placement engine (`decide_worker`, spec section 4.5) -/

namespace Placement

/-- Worker status values relevant to placement. -/
inductive WStatus where
  | running
  | paused
  | closing_gracefully
deriving DecidableEq

/-- A worker as seen by the placement engine: address, status and current
occupancy (estimated seconds of assigned work). -/
structure PWorker where
  address : String
  status : WStatus
  occupancy : Nat
deriving DecidableEq

/-- A task as seen by the placement engine: its worker restrictions (`none`
means unrestricted), the `loose_restrictions` flag, and the value its run
specification computes once executed. -/
structure PTask where
  worker_restrictions : Option (List String)
  loose_restrictions : Bool
  compute : Int
deriving DecidableEq

/-- The running workers (spec: the candidate pool for unrestricted tasks and
for loose widening). -/
def runningWorkers (ws : List PWorker) : List PWorker :=
  ws.filter fun w => w.status == .running

/-- Modelled from the spec: the candidate set `C` of `decide_worker` — the
workers satisfying the task's worker restrictions, or all running workers if
the task is unrestricted. -/
def candidates (t : PTask) (ws : List PWorker) : List PWorker :=
  match t.worker_restrictions with
  | none => runningWorkers ws
  | some rs => ws.filter fun w => rs.contains w.address

/-- Deterministic preference between workers: strictly lower occupancy, ties
broken by lower address. -/
def better (a b : PWorker) : Bool :=
  decide (a.occupancy < b.occupancy ∨ (a.occupancy = b.occupancy ∧ a.address < b.address))

/-- Deterministic argmin over a candidate list (lowest occupancy, stable
tie-break on address); `none` only on the empty list. -/
def pickBest : List PWorker → Option PWorker
  | [] => none
  | w :: ws =>
    match pickBest ws with
    | none => some w
    | some b => some (if better b w then b else w)

/-- Modelled from the spec: `Scheduler.decide_worker` is not among the
available sources.  Steps 1-2 of spec section 4.5 are embedded exactly: an
empty candidate set returns `NO_WORKER` (`none`) unless `loose_restrictions`
widens the pool to all running workers.  The scoring steps 3-6 (dependency
locality, root-task co-scheduling, transfer cost) are condensed to the
deterministic occupancy argmin, which is all the claims about restriction
handling exercise. -/
def decide_worker (t : PTask) (ws : List PWorker) : Option PWorker :=
  let C := candidates t ws
  if C.isEmpty then
    if t.loose_restrictions then pickBest (runningWorkers ws) else none
  else
    pickBest C

/-- Task states reachable through placement. -/
inductive TState where
  | noWorker
  | processing
  | memory
  | erred
deriving DecidableEq

/-- The state a task enters after one placement decision: `no-worker` when
`decide_worker` returns `NO_WORKER`, else `processing` on the chosen
worker. -/
def placeTask (t : PTask) (ws : List PWorker) : TState :=
  match decide_worker t ws with
  | none => .noWorker
  | some _ => .processing

/-- A later scheduling pass over a task parked in `no-worker` (the
`no-worker → processing` transition fires only when a suitable worker
appears); other states are untouched. -/
def recheckNoWorker (t : PTask) (ws : List PWorker) : TState → TState
  | .noWorker => placeTask t ws
  | st => st

/-- Observable outcome of a submission: the task's final state and, when it
reached `memory`, the computed value. -/
structure TaskOutcome where
  state : TState
  value : Option Int
deriving DecidableEq

/-- Runs the placement decision to completion: a placed task executes its run
specification and its result enters `memory`; an unplaceable task stays in
`no-worker` with no value. -/
def scheduleAndRun (t : PTask) (ws : List PWorker) : TaskOutcome :=
  match decide_worker t ws with
  | none => ⟨.noWorker, none⟩
  | some _ => ⟨.memory, some t.compute⟩

/-- Result of a client awaiting a task future with a deadline. -/
inductive AwaitResult where
  | value (v : Int)
  | timeoutError
deriving DecidableEq

/-- Modelled from the spec: a client awaiting a task with a deadline receives
the value if the task reached `memory`, and a `TimeoutError` otherwise — a
task parked in `no-worker` never completes within any finite deadline
(milliseconds; the deadline's magnitude is irrelevant to the outcome). -/
def awaitWithDeadline (_deadlineMs : Nat) (o : TaskOutcome) : AwaitResult :=
  match o.state, o.value with
  | .memory, some v => .value v
  | _, _ => .timeoutError

/-- The `inc` function used by the scenario tests. -/
def inc (n : Int) : Int := n + 1

end Placement

/-! ## Rebalance (spec section 4.8) -/

namespace Rebalance

/-- A worker as seen by `rebalance`: address, memory limit, and its replicas
as an insertion-ordered list of `(key, nbytes)` pairs (least-recently inserted
first). -/
structure RWorker where
  address : String
  memory_limit : Nat
  keys : List (Nat × Nat)
deriving DecidableEq

/-- The managed-memory measure of a worker: total bytes of its replicas. -/
def managedOf (w : RWorker) : Nat :=
  (w.keys.map fun e => e.2).sum

/-- Rebalance thresholds, as integer percentages of a worker's memory limit
(`sender-min` and `recipient-max` in the configuration; the claims use the
managed measure and a zero sender-recipient gap). -/
structure RebalanceConfig where
  sender_min_pct : Nat
  recipient_max_pct : Nat
deriving DecidableEq

/-- Offers one key to the recipients in order; the first recipient that does
not already hold the key and stays at or below the mean accepts it (spec:
"skip if recipient already holds the key"). -/
def placeKey (mean : Nat) (k : Nat × Nat) : List RWorker → Option (List RWorker)
  | [] => none
  | r :: rs =>
    if (r.keys.all fun e => e.1 != k.1) && decide (managedOf r + k.2 ≤ mean) then
      some ({ r with keys := r.keys ++ [k] } :: rs)
    else
      match placeKey mean k rs with
      | none => none
      | some rs' => some (r :: rs')

/-- Walks one sender's keys least-recently-inserted first, moving each key to
a recipient unless the move would push the sender below the mean (spec: "skip
if moving would push sender below the mean memory") or no recipient can take
it; returns the keys the sender retains and the updated recipients. -/
def sendKeys (mean : Nat) :
    List (Nat × Nat) → Nat → List (Nat × Nat) → List RWorker →
      List (Nat × Nat) × List RWorker
  | [], _, kept, recips => (kept, recips)
  | k :: rest, m, kept, recips =>
    if mean + k.2 ≤ m then
      match placeKey mean k recips with
      | some recips' => sendKeys mean rest (m - k.2) kept recips'
      | none => sendKeys mean rest m (kept ++ [k]) recips
    else
      sendKeys mean rest m (kept ++ [k]) recips

/-- Processes the senders in order, threading the recipient list through. -/
def processSenders (mean : Nat) :
    List RWorker → List RWorker → List RWorker × List RWorker
  | [], recips => ([], recips)
  | s :: ss, recips =>
    match sendKeys mean s.keys (managedOf s) [] recips with
    | (kept, recips') =>
      match processSenders mean ss recips' with
      | (ss', recips'') => ({ s with keys := kept } :: ss', recips'')

/-- Modelled from the spec: `Scheduler.rebalance` is not among the available
sources.  Per spec section 4.8 with the managed measure: senders are the
workers above the `sender-min` fraction of their memory limit, recipients
those below the `recipient-max` fraction; candidate moves skip keys the
recipient already holds and keys whose move would push the sender below the
mean, taking keys least-recently inserted first.  The mean bound on both sides
realizes the skip-below-mean rule; senders and recipients are thereby
disjoint.  The result lists senders, then recipients, then untouched workers
(workers are identified by address, so order carries no meaning). -/
def rebalance (cfg : RebalanceConfig) (ws : List RWorker) : List RWorker :=
  let mean := (ws.map managedOf).sum / ws.length
  let isSender := fun w : RWorker =>
    decide (cfg.sender_min_pct * w.memory_limit < 100 * managedOf w) &&
      decide (mean ≤ managedOf w)
  let isRecipient := fun w : RWorker =>
    decide (100 * managedOf w < cfg.recipient_max_pct * w.memory_limit) &&
      decide (managedOf w < mean)
  let senders := ws.filter isSender
  let recips := ws.filter fun w => !isSender w && isRecipient w
  let others := ws.filter fun w => !isSender w && !isRecipient w
  match processSenders mean senders recips with
  | (senders', recips') => senders' ++ recips' ++ others

/-- Number of replicas held by the worker with the given address (0 if the
address is unknown). -/
def keyCount (address : String) (ws : List RWorker) : Nat :=
  match ws.find? fun w => w.address == address with
  | some w => w.keys.length
  | none => 0

/-- The concrete scenario of the rebalance test: worker `a` holds 100
scattered keys of one byte each, worker `b` holds none; both have the same
memory limit. -/
def scenarioWorkers : List RWorker :=
  [RWorker.mk "a" 1000 ((List.range 100).map fun i => (i, 1)),
    RWorker.mk "b" 1000 []]

end Rebalance

/-! ## Transition engine batch processing (spec section 4.4) -/

namespace TransitionEngine

/-- Modelled from the spec: follow-on transitions form a DAG in the dependents
direction.  Tasks are numbered along a topological order, so each transition's
ordered list of follow-on transitions touches distinct tasks of strictly
smaller index. -/
structure FollowOns where
  next : Nat → List Nat
  nodup : ∀ t, (next t).Nodup
  lt : ∀ t u, u ∈ next t → u < t

/-- Termination measure on the depth-first stack of pending transitions: a
task of index `t` weighs `3 ^ t`, which dominates the combined weight of any
duplicate-free set of smaller-index follow-ons. -/
def stackMeasure : List Nat → Nat
  | [] => 0
  | t :: rest => 3 ^ t + stackMeasure rest

/-- Result of one transition batch: committed with the final transition
counter, aborted with the dedicated counter-exceeded error, or ran out of the
(sufficient) step budget — the termination theorem shows this last case never
happens. -/
inductive BatchResult where
  | ok (transitions : Nat)
  | exceeded (transitions : Nat)
  | diverged
deriving DecidableEq

/-- Modelled from the spec: the transition engine's batch loop is not among
the available sources.  Per spec section 4.4 the loop pops a pending
transition, increments the transition counter, aborts with the dedicated
error as soon as the counter passes the configured `transition_counter_max`
(`some m`; `none` disables the bound), and pushes the follow-on transitions
depth-first.  The explicit step budget makes the loop a total function; the
DAG structure proves the budget sufficient. -/
def runBatchAux (fo : FollowOns) (maxc : Option Nat) :
    Nat → Nat → List Nat → BatchResult
  | 0, counter, pending => if pending.isEmpty then .ok counter else .diverged
  | _ + 1, counter, [] => .ok counter
  | fuel + 1, counter, t :: rest =>
    match maxc with
    | some m =>
      if m < counter + 1 then .exceeded (counter + 1)
      else runBatchAux fo maxc fuel (counter + 1) (fo.next t ++ rest)
    | none => runBatchAux fo none fuel (counter + 1) (fo.next t ++ rest)

/-- Runs the batch triggered by one stimulus (the initial recommendations)
with a step budget that the termination theorem proves sufficient. -/
def runBatch (fo : FollowOns) (maxc : Option Nat) (pending : List Nat) : BatchResult :=
  runBatchAux fo maxc (stackMeasure pending + 1) 0 pending

/-- A degenerate follow-on structure (no transition recommends anything),
used to instantiate the batch theorems concretely. -/
def foNil : FollowOns :=
  ⟨fun _ => [], fun _ => List.nodup_nil, fun _ u h => absurd h (List.not_mem_nil u)⟩

end TransitionEngine

/-! ## Helper lemmas -/

theorem stackMeasure_append (a b : List Nat) :
    TransitionEngine.stackMeasure (a ++ b)
      = TransitionEngine.stackMeasure a + TransitionEngine.stackMeasure b := by
  induction a with
  | nil => simp [TransitionEngine.stackMeasure]
  | cons t a ih => simp [TransitionEngine.stackMeasure, ih]; omega

theorem stackMeasure_eq_sum_map (l : List Nat) :
    TransitionEngine.stackMeasure l = (l.map fun u => 3 ^ u).sum := by
  induction l with
  | nil => rfl
  | cons t l ih => simp [TransitionEngine.stackMeasure, ih]

theorem geom3_sum_lt (t : Nat) :
    ((Finset.range t).sum fun u => (3 : Nat) ^ u) < 3 ^ t := by
  induction t with
  | zero => simp
  | succ t ih =>
    rw [Finset.sum_range_succ]
    have h3 : (3 : Nat) ^ t + 3 ^ t ≤ 3 ^ (t + 1) := by
      rw [pow_succ]
      omega
    omega

theorem stackMeasure_lt_pow (l : List Nat) (t : Nat) (hnd : l.Nodup)
    (hlt : ∀ u ∈ l, u < t) : TransitionEngine.stackMeasure l < 3 ^ t := by
  rw [stackMeasure_eq_sum_map]
  rw [← List.sum_toFinset _ hnd]
  have hsub : l.toFinset ⊆ Finset.range t := by
    intro u hu
    rw [List.mem_toFinset] at hu
    rw [Finset.mem_range]
    exact hlt u hu
  calc l.toFinset.sum (fun u => (3 : Nat) ^ u)
      ≤ (Finset.range t).sum fun u => (3 : Nat) ^ u := by
        refine Finset.sum_le_sum_of_subset hsub
    _ < 3 ^ t := geom3_sum_lt t

theorem stackMeasure_step (fo : TransitionEngine.FollowOns) (t : Nat) (rest : List Nat) :
    TransitionEngine.stackMeasure (fo.next t ++ rest)
      < TransitionEngine.stackMeasure (t :: rest) := by
  rw [stackMeasure_append]
  have h := stackMeasure_lt_pow (fo.next t) t (fo.nodup t) (fo.lt t)
  simp only [TransitionEngine.stackMeasure]
  omega

theorem runBatchAux_no_diverge (fo : TransitionEngine.FollowOns)
    (maxc : Option Nat) :
    ∀ fuel counter pending, TransitionEngine.stackMeasure pending < fuel →
      TransitionEngine.runBatchAux fo maxc fuel counter pending
        ≠ TransitionEngine.BatchResult.diverged := by
  intro fuel
  induction fuel with
  | zero => intro counter pending h; omega
  | succ fuel ih =>
    intro counter pending h
    cases pending with
    | nil =>
      unfold TransitionEngine.runBatchAux
      intro hc
      cases hc
    | cons t rest =>
      have hmeas : TransitionEngine.stackMeasure (fo.next t ++ rest) < fuel := by
        have := stackMeasure_step fo t rest
        omega
      unfold TransitionEngine.runBatchAux
      cases maxc with
      | none => exact ih (counter + 1) (fo.next t ++ rest) hmeas
      | some m =>
        by_cases hm : m < counter + 1
        · simp only [hm, if_true]
          intro hc
          cases hc
        · simp only [hm, if_false]
          exact ih (counter + 1) (fo.next t ++ rest) hmeas

theorem runBatchAux_none_ok (fo : TransitionEngine.FollowOns) :
    ∀ fuel counter pending, TransitionEngine.stackMeasure pending < fuel →
      ∃ n, TransitionEngine.runBatchAux fo none fuel counter pending
        = TransitionEngine.BatchResult.ok n := by
  intro fuel
  induction fuel with
  | zero => intro counter pending h; omega
  | succ fuel ih =>
    intro counter pending h
    cases pending with
    | nil => exact ⟨counter, rfl⟩
    | cons t rest =>
      have hmeas : TransitionEngine.stackMeasure (fo.next t ++ rest) < fuel := by
        have := stackMeasure_step fo t rest
        omega
      exact ih (counter + 1) (fo.next t ++ rest) hmeas

theorem runBatchAux_exceeds (fo : TransitionEngine.FollowOns) :
    ∀ fuel counter pending m n, TransitionEngine.stackMeasure pending < fuel →
      counter ≤ m →
      TransitionEngine.runBatchAux fo none fuel counter pending
        = TransitionEngine.BatchResult.ok n →
      m < n →
      TransitionEngine.runBatchAux fo (some m) fuel counter pending
        = TransitionEngine.BatchResult.exceeded (m + 1) := by
  intro fuel
  induction fuel with
  | zero => intro counter pending m n h; omega
  | succ fuel ih =>
    intro counter pending m n h hcm hok hmn
    cases pending with
    | nil =>
      unfold TransitionEngine.runBatchAux at hok
      cases hok
      omega
    | cons t rest =>
      have hmeas : TransitionEngine.stackMeasure (fo.next t ++ rest) < fuel := by
        have := stackMeasure_step fo t rest
        omega
      unfold TransitionEngine.runBatchAux at hok
      change TransitionEngine.runBatchAux fo none fuel (counter + 1) (fo.next t ++ rest)
          = TransitionEngine.BatchResult.ok n at hok
      unfold TransitionEngine.runBatchAux
      change (if m < counter + 1 then TransitionEngine.BatchResult.exceeded (counter + 1)
          else TransitionEngine.runBatchAux fo (some m) fuel (counter + 1) (fo.next t ++ rest))
        = TransitionEngine.BatchResult.exceeded (m + 1)
      by_cases hm : m < counter + 1
      · rw [if_pos hm]
        have hce : counter = m := by omega
        rw [hce]
      · rw [if_neg hm]
        exact ih (counter + 1) (fo.next t ++ rest) m n hmeas (by omega) hok hmn

theorem pickBest_mem :
    ∀ (l : List Placement.PWorker) (w : Placement.PWorker),
      Placement.pickBest l = some w → w ∈ l := by
  intro l
  induction l with
  | nil => intro w h; cases h
  | cons a l ih =>
    intro w h
    unfold Placement.pickBest at h
    cases hb : Placement.pickBest l with
    | none =>
      rw [hb] at h
      cases h
      exact List.mem_cons_self a l
    | some b =>
      rw [hb] at h
      by_cases hbet : Placement.better b a
      · simp [hbet] at h
        subst h
        exact List.mem_cons_of_mem a (ih b hb)
      · simp [hbet] at h
        subst h
        exact List.mem_cons_self a l

theorem pickBest_isSome (l : List Placement.PWorker) (h : l ≠ []) :
    ∃ w, Placement.pickBest l = some w := by
  cases l with
  | nil => exact absurd rfl h
  | cons a l =>
    unfold Placement.pickBest
    cases Placement.pickBest l with
    | none => exact ⟨a, rfl⟩
    | some b => exact ⟨if Placement.better b a then b else a, rfl⟩

theorem candidates_empty_of_unsatisfiable (t : Placement.PTask)
    (ws : List Placement.PWorker) (rs : List String)
    (hrs : t.worker_restrictions = some rs)
    (hnone : ∀ w ∈ ws, rs.contains w.address = false) :
    Placement.candidates t ws = [] := by
  unfold Placement.candidates
  rw [hrs]
  rw [List.filter_eq_nil_iff]
  intro w hw
  simpa using hnone w hw

theorem execute_list_eq_map (ts : List ExecuteTask.TaskExpr) :
    ExecuteTask.execute_list ts = ts.map ExecuteTask.execute_task := by
  induction ts with
  | nil => rfl
  | cons t ts ih => simp [ExecuteTask.execute_list, ih]

/-! ## Claim theorems (first group) -/

/-- Claim C1: every `MemoryState` constructed from non-negative inputs
satisfies the four additivity identities
`managed_in_memory + unmanaged = process`,
`unmanaged_old + unmanaged_recent = unmanaged`,
`managed_in_memory + managed_spilled = managed`,
`optimistic + unmanaged_recent = process`; and the concrete instance
`MemoryState(process=100, unmanaged_old=15, managed_in_memory=68,
managed_spilled=12)` yields `managed=80`, `unmanaged=32`,
`unmanaged_recent=17`, `optimistic=83`. -/
theorem memorystate_adds_up (p uo mim ms : Nat) :
    ((MemoryModel.MemoryState.make p uo mim ms).managed_in_memory
        + (MemoryModel.MemoryState.make p uo mim ms).unmanaged
      = (MemoryModel.MemoryState.make p uo mim ms).process) ∧
    ((MemoryModel.MemoryState.make p uo mim ms).unmanaged_old
        + (MemoryModel.MemoryState.make p uo mim ms).unmanaged_recent
      = (MemoryModel.MemoryState.make p uo mim ms).unmanaged) ∧
    ((MemoryModel.MemoryState.make p uo mim ms).managed_in_memory
        + (MemoryModel.MemoryState.make p uo mim ms).managed_spilled
      = (MemoryModel.MemoryState.make p uo mim ms).managed) ∧
    ((MemoryModel.MemoryState.make p uo mim ms).optimistic
        + (MemoryModel.MemoryState.make p uo mim ms).unmanaged_recent
      = (MemoryModel.MemoryState.make p uo mim ms).process) ∧
    ((MemoryModel.MemoryState.make 100 15 68 12).managed = 80 ∧
      (MemoryModel.MemoryState.make 100 15 68 12).unmanaged = 32 ∧
      (MemoryModel.MemoryState.make 100 15 68 12).unmanaged_recent = 17 ∧
      (MemoryModel.MemoryState.make 100 15 68 12).optimistic = 83) := by
  refine ⟨?_, ?_, ?_, ?_, by decide⟩ <;>
    simp only [MemoryModel.MemoryState.make, MemoryModel.MemoryState.managed,
      MemoryModel.MemoryState.unmanaged, MemoryModel.MemoryState.unmanaged_recent,
      MemoryModel.MemoryState.optimistic] <;>
    omega

/-- Claim C9: a `worker-status-change` command naming `closing_gracefully`
received while the worker's status is not in `WORKER_ANY_RUNNING` leaves the
status unchanged and re-announces the current status; in every other case the
commanded status is adopted (and announced).  Hence a non-running worker never
enters `closing_gracefully` through this handler. -/
theorem handle_worker_status_change_spec
    (current commanded : WorkerStatusChange.Status) :
    (current ∉ WorkerStatusChange.WORKER_ANY_RUNNING →
      WorkerStatusChange.handle_worker_status_change current .closing_gracefully
        = ⟨current, current⟩) ∧
    (current ∈ WorkerStatusChange.WORKER_ANY_RUNNING →
      WorkerStatusChange.handle_worker_status_change current commanded
        = ⟨commanded, commanded⟩) ∧
    (commanded ≠ .closing_gracefully →
      WorkerStatusChange.handle_worker_status_change current commanded
        = ⟨commanded, commanded⟩) ∧
    (current ∉ WorkerStatusChange.WORKER_ANY_RUNNING →
      (WorkerStatusChange.handle_worker_status_change current commanded).newStatus
        ≠ .closing_gracefully) := by
  revert current commanded
  decide

/-- Witness for C9 at a concrete input: a worker whose status is `init` (not
running) keeps its status, re-announces it, and does not enter
`closing_gracefully` when commanded to. -/
theorem handle_worker_status_change_spec_witness :
    WorkerStatusChange.handle_worker_status_change .statusInit .closing_gracefully
        = ⟨.statusInit, .statusInit⟩ ∧
    (WorkerStatusChange.handle_worker_status_change .statusInit .closing_gracefully).newStatus
        ≠ .closing_gracefully :=
  ⟨(handle_worker_status_change_spec .statusInit .closing_gracefully).1 (by decide),
    (handle_worker_status_change_spec .statusInit .closing_gracefully).2.2.2 (by decide)⟩

/-- Claim C10: `execute_task` evaluates a nested task expression recursively:
a tuple with a callable head applies the callable to the evaluation of the
remaining elements, a list is mapped over, and any other value is returned
unchanged; in particular `execute_task((sum, [1, 2, (inc, 3)])) = 7`. -/
theorem execute_task_spec :
    (∀ f args, ExecuteTask.execute_task (.tup f args)
      = ExecuteTask.applyFn f (args.map ExecuteTask.execute_task)) ∧
    (∀ args, ExecuteTask.execute_task (.lst args)
      = .list (args.map ExecuteTask.execute_task)) ∧
    (∀ v, ExecuteTask.execute_task (.const v) = v) ∧
    ExecuteTask.execute_task
        (.tup .sum [.lst [.const (.int 1), .const (.int 2), .tup .inc [.const (.int 3)]]])
      = .int 7 := by
  refine ⟨?_, ?_, ?_, ?_⟩
  · intro f args
    simp [ExecuteTask.execute_task, execute_list_eq_map]
  · intro args
    simp [ExecuteTask.execute_task, execute_list_eq_map]
  · intro v
    simp [ExecuteTask.execute_task]
  · rfl

/-- Claim C2: `remove_worker` is idempotent.  A first call on a registered
worker removes it (returning `"OK"`), and any call whose address is absent —
in particular a second call on the same address — returns `"already-removed"`
and leaves the scheduler state unchanged. -/
theorem remove_worker_idempotent (s : WorkerRegistry.RegistryState) (w : String) :
    (w ∈ s.workers →
      (WorkerRegistry.remove_worker w s).1 = "OK" ∧
      w ∉ (WorkerRegistry.remove_worker w s).2.workers ∧
      WorkerRegistry.remove_worker w (WorkerRegistry.remove_worker w s).2
        = ("already-removed", (WorkerRegistry.remove_worker w s).2)) ∧
    (w ∉ s.workers →
      WorkerRegistry.remove_worker w s = ("already-removed", s)) := by
  have habs : ∀ t : WorkerRegistry.RegistryState, w ∉ t.workers →
      WorkerRegistry.remove_worker w t = ("already-removed", t) := by
    intro t ht
    unfold WorkerRegistry.remove_worker
    rw [if_neg ht]
  refine ⟨?_, habs s⟩
  intro hw
  have hnot : w ∉ (WorkerRegistry.remove_worker w s).2.workers := by
    unfold WorkerRegistry.remove_worker
    rw [if_pos hw]
    simp [List.mem_filter]
  refine ⟨?_, hnot, habs _ hnot⟩
  unfold WorkerRegistry.remove_worker
  rw [if_pos hw]

/-- Witness for C2 at a concrete input: removing worker `"a"` from a registry
holding workers `"a"` and `"b"` succeeds, and a second removal of `"a"`
returns `"already-removed"` without changing the state. -/
theorem remove_worker_idempotent_witness :
    ("a" ∈ (WorkerRegistry.RegistryState.mk ["a", "b"] []).workers) ∧
    (WorkerRegistry.remove_worker "a" (WorkerRegistry.RegistryState.mk ["a", "b"] [])).1
      = "OK" ∧
    WorkerRegistry.remove_worker "a"
        (WorkerRegistry.remove_worker "a" (WorkerRegistry.RegistryState.mk ["a", "b"] [])).2
      = ("already-removed",
        (WorkerRegistry.remove_worker "a" (WorkerRegistry.RegistryState.mk ["a", "b"] [])).2) := by
  have h := (remove_worker_idempotent (WorkerRegistry.RegistryState.mk ["a", "b"] []) "a").1
    (by decide)
  exact ⟨by decide, h.1, h.2.2⟩

/-- Claim C3: on a worker-reported task failure the scheduler decrements a
positive retry budget and re-runs the task through
`processing → released → processing`, and errs the task when the budget is
exhausted; concretely, a task raising `"one"`, then `"two"`, then returning 42
finishes with value 42 and remaining `retries = 1` when submitted with
`retries = 3`, and errs with the second exception `"two"` when submitted with
`retries = 1`. -/
theorem retries_spec :
    (∀ m rest r, Retries.runRetries (.fail m :: rest) (r + 1)
      = Retries.runRetries rest r) ∧
    (∀ m rest r, Retries.retryTrace (.fail m :: rest) (r + 1)
      = .processing :: .released :: Retries.retryTrace rest r) ∧
    (∀ o rest r, (Retries.retryTrace (o :: rest) r).head? = some .processing) ∧
    (∀ m rest, Retries.runRetries (.fail m :: rest) 0 = .erred m) ∧
    (∀ m rest, Retries.retryTrace (.fail m :: rest) 0 = [.processing, .erred]) ∧
    Retries.runRetries [.fail "one", .fail "two", .ok 42] 3 = .finished 42 1 ∧
    Retries.runRetries [.fail "one", .fail "two", .ok 42] 1 = .erred "two" := by
  refine ⟨fun m rest r => rfl, fun m rest r => rfl, ?_, fun m rest => rfl,
    fun m rest => rfl, rfl, rfl⟩
  intro o rest r
  cases o <;> cases r <;> rfl

/-- Claim C8: `check_idle` never records idleness from a single observation:
with the system idle (no tasks, nothing processing) and the previous check not
idle, the first call leaves `idle_since` unset and the second consecutive call
sets it; any call while tasks exist leaves `idle_since` unset. -/
theorem check_idle_two_consecutive (s : IdleDetection.IdleState) (now later : Nat)
    (htasks : s.tasks = 0) (hproc : s.processingCount = 0) (hprev : s.prevIdle = false) :
    (IdleDetection.check_idle now s).idle_since = none ∧
    (IdleDetection.check_idle later (IdleDetection.check_idle now s)).idle_since
      = some later ∧
    (∀ t : IdleDetection.IdleState, ∀ m : Nat, 0 < t.tasks →
      (IdleDetection.check_idle m t).idle_since = none) := by
  have h1 : IdleDetection.check_idle now s
      = { s with prevIdle := true, idle_since := none } := by
    simp [IdleDetection.check_idle, htasks, hproc, hprev]
  refine ⟨by simp [h1], ?_, ?_⟩
  · rw [h1]
    simp [IdleDetection.check_idle, htasks, hproc]
  · intro t m ht
    have : ¬(t.tasks = 0 ∧ t.processingCount = 0) := by omega
    simp [IdleDetection.check_idle, this]

/-- Witness for C8 at a concrete input: starting from the idle state with no
tasks and no processing, the first check records nothing, the second records
`idle_since`, and a state with one task never records `idle_since`. -/
theorem check_idle_two_consecutive_witness :
    (IdleDetection.check_idle 5 (IdleDetection.IdleState.mk 0 0 false none)).idle_since
      = none ∧
    (IdleDetection.check_idle 7
        (IdleDetection.check_idle 5 (IdleDetection.IdleState.mk 0 0 false none))).idle_since
      = some 7 ∧
    (IdleDetection.check_idle 9 (IdleDetection.IdleState.mk 1 0 false none)).idle_since
      = none := by
  have h := check_idle_two_consecutive (IdleDetection.IdleState.mk 0 0 false none) 5 7
    rfl rfl rfl
  exact ⟨h.1, h.2.1, h.2.2 (IdleDetection.IdleState.mk 1 0 false none) 9 (by decide)⟩

/-- Claim C4: a task whose worker restrictions are satisfied by no existing
worker and whose `loose_restrictions` flag is false gets `NO_WORKER` from
`decide_worker`, enters and stays in `no-worker`, is never erred by the
scheduler, and a client awaiting it with a deadline (here 50 ms) receives a
`TimeoutError`. -/
theorem no_valid_workers (t : Placement.PTask) (ws : List Placement.PWorker)
    (rs : List String) (hrs : t.worker_restrictions = some rs)
    (hnone : ∀ w ∈ ws, rs.contains w.address = false)
    (hloose : t.loose_restrictions = false) :
    Placement.decide_worker t ws = none ∧
    Placement.placeTask t ws = .noWorker ∧
    Placement.recheckNoWorker t ws .noWorker = .noWorker ∧
    Placement.placeTask t ws ≠ .erred ∧
    Placement.awaitWithDeadline 50 (Placement.scheduleAndRun t ws) = .timeoutError := by
  have hC : Placement.candidates t ws = [] :=
    candidates_empty_of_unsatisfiable t ws rs hrs hnone
  have hdw : Placement.decide_worker t ws = none := by
    unfold Placement.decide_worker
    simp [hC, hloose]
  have hplace : Placement.placeTask t ws = .noWorker := by
    unfold Placement.placeTask
    rw [hdw]
  refine ⟨hdw, hplace, ?_, ?_, ?_⟩
  · unfold Placement.recheckNoWorker
    exact hplace
  · rw [hplace]
    decide
  · unfold Placement.scheduleAndRun
    rw [hdw]
    rfl

/-- Witness for C4 at the concrete input of the scenario: three running
workers and the restriction `127.0.0.5:9999`, which none of them satisfies;
the task is parked in `no-worker` and the awaiting client times out. -/
theorem no_valid_workers_witness :
    Placement.decide_worker
        (Placement.PTask.mk (some ["127.0.0.5:9999"]) false (Placement.inc 1))
        [Placement.PWorker.mk "127.0.0.1:1" .running 0,
          Placement.PWorker.mk "127.0.0.1:2" .running 0,
          Placement.PWorker.mk "127.0.0.1:3" .running 0]
      = none ∧
    Placement.awaitWithDeadline 50
        (Placement.scheduleAndRun
          (Placement.PTask.mk (some ["127.0.0.5:9999"]) false (Placement.inc 1))
          [Placement.PWorker.mk "127.0.0.1:1" .running 0,
            Placement.PWorker.mk "127.0.0.1:2" .running 0,
            Placement.PWorker.mk "127.0.0.1:3" .running 0])
      = .timeoutError := by
  have h := no_valid_workers
    (Placement.PTask.mk (some ["127.0.0.5:9999"]) false (Placement.inc 1))
    [Placement.PWorker.mk "127.0.0.1:1" .running 0,
      Placement.PWorker.mk "127.0.0.1:2" .running 0,
      Placement.PWorker.mk "127.0.0.1:3" .running 0]
    ["127.0.0.5:9999"] rfl (by decide) rfl
  exact ⟨h.1, h.2.2.2.2⟩

/-- Claim C5: a task whose worker restrictions are satisfied by no existing
worker but whose `loose_restrictions` flag is true has its candidate set
widened to all running workers and completes on one of them; with run
specification `inc 1` the task completes with value 2. -/
theorem no_valid_workers_loose (t : Placement.PTask) (ws : List Placement.PWorker)
    (rs : List String) (hrs : t.worker_restrictions = some rs)
    (hnone : ∀ w ∈ ws, rs.contains w.address = false)
    (hloose : t.loose_restrictions = true)
    (hrun : Placement.runningWorkers ws ≠ []) :
    (∃ w, Placement.decide_worker t ws = some w
      ∧ w ∈ Placement.runningWorkers ws) ∧
    Placement.scheduleAndRun t ws
      = Placement.TaskOutcome.mk .memory (some t.compute) ∧
    (t.compute = Placement.inc 1 →
      Placement.scheduleAndRun t ws
        = Placement.TaskOutcome.mk .memory (some 2)) := by
  have hC : Placement.candidates t ws = [] :=
    candidates_empty_of_unsatisfiable t ws rs hrs hnone
  obtain ⟨w, hw⟩ := pickBest_isSome (Placement.runningWorkers ws) hrun
  have hdw : Placement.decide_worker t ws = some w := by
    unfold Placement.decide_worker
    simp [hC, hloose, hw]
  have hsched : Placement.scheduleAndRun t ws
      = Placement.TaskOutcome.mk .memory (some t.compute) := by
    unfold Placement.scheduleAndRun
    rw [hdw]
  refine ⟨⟨w, hdw, pickBest_mem _ w hw⟩, hsched, ?_⟩
  intro hc
  rw [hsched, hc]
  rfl

/-- Witness for C5 at the concrete input of the scenario: three running
workers, an unsatisfiable restriction, `allow_other_workers=true`, and run
specification `inc 1`; the task completes with value 2 on a running worker. -/
theorem no_valid_workers_loose_witness :
    (∃ w, Placement.decide_worker
        (Placement.PTask.mk (some ["127.0.0.5:9999"]) true (Placement.inc 1))
        [Placement.PWorker.mk "127.0.0.1:1" .running 0,
          Placement.PWorker.mk "127.0.0.1:2" .running 0,
          Placement.PWorker.mk "127.0.0.1:3" .running 0]
      = some w) ∧
    Placement.scheduleAndRun
        (Placement.PTask.mk (some ["127.0.0.5:9999"]) true (Placement.inc 1))
        [Placement.PWorker.mk "127.0.0.1:1" .running 0,
          Placement.PWorker.mk "127.0.0.1:2" .running 0,
          Placement.PWorker.mk "127.0.0.1:3" .running 0]
      = Placement.TaskOutcome.mk .memory (some 2) := by
  have h := no_valid_workers_loose
    (Placement.PTask.mk (some ["127.0.0.5:9999"]) true (Placement.inc 1))
    [Placement.PWorker.mk "127.0.0.1:1" .running 0,
      Placement.PWorker.mk "127.0.0.1:2" .running 0,
      Placement.PWorker.mk "127.0.0.1:3" .running 0]
    ["127.0.0.5:9999"] rfl (by decide) rfl (by decide)
  obtain ⟨⟨w, hw, _⟩, _, hval⟩ := h
  exact ⟨⟨w, hw⟩, hval rfl⟩

/-- Counterexample to claim C6 as stated: with `recipient-max = 0` no worker
measures strictly below the recipient threshold (measures are non-negative),
so `rebalance` chooses no recipients and moves nothing — worker `a` keeps all
100 keys and worker `b` none, instead of the claimed 50/50 split. -/
theorem rebalance_recipient_max_zero_counterexample :
    Rebalance.keyCount "a"
        (Rebalance.rebalance (Rebalance.RebalanceConfig.mk 0 0) Rebalance.scenarioWorkers)
      = 100 ∧
    Rebalance.keyCount "b"
        (Rebalance.rebalance (Rebalance.RebalanceConfig.mk 0 0) Rebalance.scenarioWorkers)
      = 0 ∧
    ¬(Rebalance.keyCount "a"
          (Rebalance.rebalance (Rebalance.RebalanceConfig.mk 0 0) Rebalance.scenarioWorkers)
        = 50 ∧
      Rebalance.keyCount "b"
          (Rebalance.rebalance (Rebalance.RebalanceConfig.mk 0 0) Rebalance.scenarioWorkers)
        = 50) := by
  refine ⟨rfl, rfl, ?_⟩
  intro h
  have h50 : (100 : Nat) = 50 := by
    calc (100 : Nat) = Rebalance.keyCount "a"
          (Rebalance.rebalance (Rebalance.RebalanceConfig.mk 0 0)
            Rebalance.scenarioWorkers) := rfl
      _ = 50 := h.1
  cases h50

/-- Claim C6 as amended: `rebalance` with the managed-memory measure,
`sender-min = 0`, a zero sender-recipient gap, and `recipient-max` left at its
default (60% of the worker's memory limit — the test configuration does not
override it) equalizes the replica counts: with worker `a` holding 100
scattered one-byte keys and worker `b` holding none, each worker holds exactly
50 keys afterwards. -/
theorem rebalance_managed_memory :
    Rebalance.keyCount "a"
        (Rebalance.rebalance (Rebalance.RebalanceConfig.mk 0 60) Rebalance.scenarioWorkers)
      = 50 ∧
    Rebalance.keyCount "b"
        (Rebalance.rebalance (Rebalance.RebalanceConfig.mk 0 60) Rebalance.scenarioWorkers)
      = 50 :=
  ⟨rfl, rfl⟩

/-- Claim C7: batch processing of transitions terminates.  For every DAG of
follow-on transitions the batch loop never exhausts its step budget; with the
bound disabled (`none`) every batch runs to completion with a committed
(valid) result; and when `transition_counter_max` is configured as `some m`
and the stimulus triggers more than `m` transitions, the batch is aborted
with the dedicated counter-exceeded error as soon as the counter passes the
bound. -/
theorem transition_counter_max_spec :
    (∀ (fo : TransitionEngine.FollowOns) (maxc : Option Nat) (pending : List Nat),
      TransitionEngine.runBatch fo maxc pending
        ≠ TransitionEngine.BatchResult.diverged) ∧
    (∀ (fo : TransitionEngine.FollowOns) (pending : List Nat),
      ∃ n, TransitionEngine.runBatch fo none pending
        = TransitionEngine.BatchResult.ok n) ∧
    (∀ (fo : TransitionEngine.FollowOns) (pending : List Nat) (m n : Nat),
      TransitionEngine.runBatch fo none pending = TransitionEngine.BatchResult.ok n →
      m < n →
      TransitionEngine.runBatch fo (some m) pending
        = TransitionEngine.BatchResult.exceeded (m + 1)) := by
  refine ⟨?_, ?_, ?_⟩
  · intro fo maxc pending
    exact runBatchAux_no_diverge fo maxc _ 0 pending (by omega)
  · intro fo pending
    exact runBatchAux_none_ok fo _ 0 pending (by omega)
  · intro fo pending m n hok hmn
    exact runBatchAux_exceeds fo _ 0 pending m n (by omega) (by omega) hok hmn

/-- Witness for C7 at a concrete input: a batch of three transitions with no
follow-ons commits with counter 3 when the bound is disabled, and aborts with
the dedicated error once the counter passes a configured bound of 2. -/
theorem transition_counter_max_spec_witness :
    TransitionEngine.runBatch TransitionEngine.foNil none [0, 0, 0]
        = TransitionEngine.BatchResult.ok 3 ∧
    TransitionEngine.runBatch TransitionEngine.foNil (some 2) [0, 0, 0]
        = TransitionEngine.BatchResult.exceeded 3 := by
  have h := transition_counter_max_spec.2.2 TransitionEngine.foNil [0, 0, 0] 2 3 rfl
    (by omega)
  exact ⟨rfl, h⟩
